import Mathlib

/-!
Shallow embedding of the bezier library (src/bezier.c, src/bezier.h).

C doubles are modelled as rationals (ℚ); all arithmetic in the library is
exact on the inputs considered. Arrays are modelled as lists; an in-place
write loop becomes a pure function returning the updated list. Fatal
assertions become `Option` guards where they can fail, and are stated as
always-true predicates where they cannot.
-/

namespace Bezier

/-- `#define DEGREE 4` from bezier.h. -/
def DEGREE : Nat := 4

/-- The constant basis matrix `Mcr` from bezier.c. -/
def Mcr : List (List ℚ) :=
  [ [  1 ,  -4 ,   6 , 4 , 1 ],
    [ -4 ,  12 , -12 , 4 , 0 ],
    [  6 , -12 ,   6 , 0 , 0 ],
    [ -4 ,   4 ,   0 , 0 , 0 ],
    [  1 ,   0 ,   0 , 0 , 0 ] ]

/-- `curve_t`: sample buffer `x` and recorded length `len`. -/
structure curve_t where
  x : List ℚ
  len : Nat
deriving DecidableEq

/-- `spline_t`: back-reference to the source curve, coefficient rows,
total coefficient count `len`, and `num_segs`. -/
structure spline_t where
  curve : curve_t
  coeff : List (List ℚ)
  len : Nat
  num_segs : Nat
deriving DecidableEq

/-- `create_curve`: `len` zero-initialized samples (calloc). -/
def create_curve (len : Nat) : curve_t :=
  { x := List.replicate len 0, len := len }

/-- `create_spline`: `num_segs = curve->len - DEGREE` rows of
`DEGREE+1` zero-initialized coefficients (calloc), `len = num_coeff`. -/
def create_spline (curve : curve_t) : spline_t :=
  let num_cpts := DEGREE + 1
  let num_segs := curve.len - DEGREE
  let num_coeff := num_cpts * num_segs
  { curve := curve
  , coeff := List.replicate num_segs (List.replicate num_cpts 0)
  , len := num_coeff
  , num_segs := num_segs }

/-- `gmatrix(G, curve)`: for `i < num_segs` (with
`num_segs = G->curve->len - DEGREE`) overwrite row `i` of `G->coeff`
with `curve->x[j+i]` for `j = 0..DEGREE`; other rows are untouched. -/
def gmatrix (G : spline_t) (curve : curve_t) : spline_t :=
  let num_segs := G.curve.len - DEGREE
  { G with coeff := G.coeff.mapIdx (fun i row =>
      if i < num_segs then
        (List.range (DEGREE + 1)).map (fun j => curve.x.getD (j + i) 0)
      else row) }

/-- `segment(S, G)`: memset `S` to zero, then
`S[i] += Mcr[i][j]*G[j]` over `j = 0..DEGREE` for each `i`.
The prior content of `S` is discarded by the memset. -/
def segment (S G : List ℚ) : List ℚ :=
  let S0 := List.replicate (DEGREE + 1) (0 : ℚ)
  (List.range (DEGREE + 1)).map (fun i =>
    S0.getD i 0 +
      ((List.range (DEGREE + 1)).map
        (fun j => (Mcr.getD i []).getD j 0 * G.getD j 0)).sum)

/-- `coefficients(spline, G)`: `segment(spline->coeff[i], G->coeff[i])`
for each `i < spline->num_segs`; rows past `num_segs` are untouched. -/
def coefficients (spline : spline_t) (G : spline_t) : spline_t :=
  { spline with coeff := spline.coeff.mapIdx (fun i row =>
      if i < spline.num_segs then segment row (G.coeff.getD i []) else row) }

/-- `polynomial(coeff, t)`: `coeff[0]*t*t*t + coeff[1]*t*t + coeff[2]*t
+ coeff[3]`. -/
def polynomial (coeff : List ℚ) (t : ℚ) : ℚ :=
  coeff.getD 0 0 * t * t * t + coeff.getD 1 0 * t * t +
    coeff.getD 2 0 * t + coeff.getD 3 0

/-- The condition of the assertion `assert( t >= 0.0 || t <= 1.0 )`
guarding `polynomial` in bezier.c. -/
def polynomial_assert_cond (t : ℚ) : Prop := t ≥ 0 ∨ t ≤ 1

instance (t : ℚ) : Decidable (polynomial_assert_cond t) := by
  unfold polynomial_assert_cond; infer_instance

/-- `polynomial` together with its assertion: aborting (the assertion
failing) is modelled as `none`. -/
def polynomial_checked (coeff : List ℚ) (t : ℚ) : Option ℚ :=
  if polynomial_assert_cond t then some (polynomial coeff t) else none

/-- `spline(curve, spline)`: build a scratch geometry matrix with
`create_spline`, fill it with `gmatrix`, then run `coefficients`. -/
def spline (curve : curve_t) (spl : spline_t) : spline_t :=
  let G := gmatrix (create_spline curve) curve
  coefficients spl G

/-- The sequence of writes performed by the nested loop of `evaluate`:
for each `i < num_segs` in order, for each `j < res` in order, write
`polynomial(coeff[i], j/res)` at index `j + i*res`. -/
def evalWrites (spline : spline_t) (res : Nat) : List (Nat × ℚ) :=
  (List.range spline.num_segs).flatMap (fun i =>
    (List.range res).map (fun j =>
      (j + i * res, polynomial (spline.coeff.getD i []) ((j : ℚ) / (res : ℚ)))))

/-- Apply in-place index writes to a buffer, in order. -/
def applyWrites (xs : List ℚ) (ws : List (Nat × ℚ)) : List ℚ :=
  ws.foldl (fun acc w => acc.set w.1 w.2) xs

/-- `evaluate(spline, solution)`: asserts `num_segs <= solution->len`
and `fmod(solution->len, num_segs) == 0` (assertion failure modelled as
`none`), computes `res = solution->len / num_segs`, then runs the write
loop. -/
def evaluate (spline : spline_t) (solution : curve_t) : Option curve_t :=
  if spline.num_segs ≤ solution.len ∧ solution.len % spline.num_segs = 0 then
    let res := solution.len / spline.num_segs
    some { solution with x := applyWrites solution.x (evalWrites spline res) }
  else none

/-- The 5x5 constant matrix stated by the specification for the basis
transform (spec section 4.4). Written from the spec's words, to be
compared against the source's `Mcr`. -/
def Mclaim : List (List ℚ) :=
  [ [  1 ,  -4 ,   6 , 4 , 1 ],
    [ -4 ,  12 , -12 , 4 , 0 ],
    [  6 , -12 ,   6 , 0 , 0 ],
    [ -4 ,   4 ,   0 , 0 , 0 ],
    [  1 ,   0 ,   0 , 0 , 0 ] ]

/-- Matrix-vector product `M · v`, the operation named by the spec for
the basis transform. -/
def matVec (M : List (List ℚ)) (v : List ℚ) : List ℚ :=
  M.map (fun row => (List.zipWith (fun a b => a * b) row v).sum)

/-- The straight-line (affine ramp) test curve `[0,1,...,8]` named by
the spec's end-to-end property. -/
def ramp9 : curve_t := { x := [0, 1, 2, 3, 4, 5, 6, 7, 8], len := 9 }

/-- A concrete 6-sample curve, used to instantiate universally
quantified statements. -/
def curve6 : curve_t := { x := [2, 4, 6, 8, 10, 12], len := 6 }

/-- The spline skeleton built from `curve6`. -/
def spl6 : spline_t := create_spline curve6

/-- The geometry matrix of `curve6`. -/
def G6 : spline_t := gmatrix (create_spline curve6) curve6

/-- A concrete one-segment spline with coefficient row `[1,2,3,4,0]`. -/
def wspline : spline_t :=
  { curve := create_curve 0, coeff := [[1, 2, 3, 4, 0]], len := 5, num_segs := 1 }

/-- A concrete two-sample output buffer. -/
def wsol : curve_t := { x := [0, 0], len := 2 }

end Bezier

namespace Bezier

theorem range_five : List.range 5 = [0, 1, 2, 3, 4] := rfl

theorem getD_mapIdx {α : Type} (l : List α) (f : Nat → α → α) (i : Nat) (d : α)
    (h : i < l.length) : (l.mapIdx f).getD i d = f i (l.getD i d) := by
  have h' : i < (l.mapIdx f).length := by simpa [List.length_mapIdx] using h
  rw [List.getD_eq_getElem?_getD, List.getD_eq_getElem?_getD, List.getElem?_mapIdx,
    List.getElem?_eq_getElem h]
  simp

theorem exists_len_five (G : List ℚ) (h : G.length = 5) :
    ∃ g0 g1 g2 g3 g4, G = [g0, g1, g2, g3, g4] := by
  match G, h with
  | [g0, g1, g2, g3, g4], _ => exact ⟨g0, g1, g2, g3, g4, rfl⟩

theorem segment_eval (S G : List ℚ) :
    segment S G =
      [ 1 * G.getD 0 0 + (-4) * G.getD 1 0 + 6 * G.getD 2 0 + 4 * G.getD 3 0
          + 1 * G.getD 4 0,
        (-4) * G.getD 0 0 + 12 * G.getD 1 0 + (-12) * G.getD 2 0 + 4 * G.getD 3 0,
        6 * G.getD 0 0 + (-12) * G.getD 1 0 + 6 * G.getD 2 0,
        (-4) * G.getD 0 0 + 4 * G.getD 1 0,
        G.getD 0 0 ] := by
  simp [segment, Mcr, DEGREE, range_five]
  and_intros <;> ring

/-- Claim C4: for every curve of length `L >= D+1`, `create_spline`
yields `num_segs = L - D`, one coefficient row per segment, each row of
exactly `D+1` coefficients, and the `len` field records
`num_segs * (D+1)` total coefficients. -/
theorem create_spline_shape (c : curve_t) (h5 : DEGREE + 1 ≤ c.len) :
    (create_spline c).num_segs = c.len - DEGREE ∧
    (create_spline c).coeff.length = (create_spline c).num_segs ∧
    (∀ row ∈ (create_spline c).coeff, row.length = DEGREE + 1) ∧
    (create_spline c).len = (create_spline c).num_segs * (DEGREE + 1) := by
  refine ⟨rfl, by simp [create_spline], ?_, ?_⟩
  · intro row hrow
    simp [create_spline] at hrow
    simp [hrow]
  · simp [create_spline, Nat.mul_comm]

theorem create_spline_shape_witness :
    (create_spline (create_curve 9)).num_segs = (create_curve 9).len - DEGREE ∧
    (create_spline (create_curve 9)).coeff.length = (create_spline (create_curve 9)).num_segs ∧
    (∀ row ∈ (create_spline (create_curve 9)).coeff, row.length = DEGREE + 1) ∧
    (create_spline (create_curve 9)).len =
      (create_spline (create_curve 9)).num_segs * (DEGREE + 1) :=
  create_spline_shape (create_curve 9) (by decide)

/-- Claim C5, counterexample: on a curve of length 9 the code computes
`num_segs = 5`, not `9 - (D+1) = 4` as the claim states. -/
theorem create_spline_numsegs_cex :
    (create_spline (create_curve 9)).num_segs = 5 ∧
    (create_spline (create_curve 9)).num_segs ≠ 9 - (DEGREE + 1) := by
  constructor
  · rfl
  · decide

/-- Claim C5, amended: for every curve with `curve.len >= D+1`,
`create_spline` computes `num_segs = curve.len - D` (with `D = 4`,
`curve.len - 4` segments). -/
theorem create_spline_numsegs (c : curve_t) (h5 : DEGREE + 1 ≤ c.len) :
    (create_spline c).num_segs = c.len - DEGREE := rfl

theorem create_spline_numsegs_witness :
    (create_spline (create_curve 9)).num_segs = (create_curve 9).len - DEGREE :=
  create_spline_numsegs (create_curve 9) (by decide)

/-- Claim C6: `polynomial` evaluates
`coeff[0]*t^3 + coeff[1]*t^2 + coeff[2]*t + coeff[3]`, never consuming
the 5th entry of the row, and satisfies the `t = 0` and `t = 1`
identities. -/
theorem polynomial_cubic :
    ∀ c0 c1 c2 c3 c4 t : ℚ,
      polynomial [c0, c1, c2, c3, c4] t = c0 * t ^ 3 + c1 * t ^ 2 + c2 * t + c3 ∧
      (∀ c4' : ℚ, polynomial [c0, c1, c2, c3, c4'] t = polynomial [c0, c1, c2, c3, c4] t) ∧
      polynomial [c0, c1, c2, c3, c4] 0 = c3 ∧
      polynomial [c0, c1, c2, c3, c4] 1 = c0 + c1 + c2 + c3 := by
  intro c0 c1 c2 c3 c4 t
  refine ⟨?_, fun c4' => ?_, ?_, ?_⟩ <;> simp [polynomial] <;> ring

/-- Claim C9: the assertion condition `t >= 0.0 || t <= 1.0` in
`polynomial` holds for every parameter `t`, so the checked version of
`polynomial` never aborts and always returns its value. -/
theorem polynomial_assert_always_true :
    ∀ (coeff : List ℚ) (t : ℚ),
      polynomial_assert_cond t ∧
      polynomial_checked coeff t = some (polynomial coeff t) := by
  intro coeff t
  have h : polynomial_assert_cond t := by
    rcases le_total 0 t with h | h
    · exact Or.inl h
    · exact Or.inr (h.trans (by norm_num))
  exact ⟨h, by simp [polynomial_checked, h]⟩

theorem getD_map_mul (k : ℚ) (l : List ℚ) (n : Nat) :
    (l.map (fun g => k * g)).getD n 0 = k * l.getD n 0 := by
  have h := List.getD_map l 0 (fun g => k * g) (n := n)
  simpa using h

theorem getD_zipWith_add (l1 l2 : List ℚ) (h : l1.length = l2.length) (n : Nat) :
    (List.zipWith (fun a b => a + b) l1 l2).getD n 0 = l1.getD n 0 + l2.getD n 0 := by
  induction l1 generalizing l2 n with
  | nil =>
    have h2 : l2 = [] := by
      cases l2
      · rfl
      · simp at h
    subst h2; simp
  | cons a l1 ih =>
    cases l2 with
    | nil => simp at h
    | cons b l2 =>
      cases n with
      | zero => simp
      | succ n => simpa using ih l2 (by simpa using h) n

/-- Claim C1: `segment(S, G)` sets `S` to the matrix-vector product
`M · G` with `M` the fixed 5x5 constant matrix of the spec, for every
prior content of `S`; and `coefficients(spline, G)` applies `segment`
to every row index `i` in `[0, spline.num_segs)`, writing
`spline.coeff[i]` from `G.coeff[i]`. -/
theorem segment_coefficients_basis :
    Mcr = Mclaim ∧
    (∀ S G : List ℚ, G.length = 5 → segment S G = matVec Mclaim G) ∧
    (∀ spl G : spline_t, (coefficients spl G).coeff.length = spl.coeff.length) ∧
    (∀ (spl G : spline_t) (i : Nat), i < spl.num_segs → i < spl.coeff.length →
      (coefficients spl G).coeff.getD i [] =
        segment (spl.coeff.getD i []) (G.coeff.getD i [])) := by
  refine ⟨rfl, ?_, ?_, ?_⟩
  · intro S G hG
    obtain ⟨g0, g1, g2, g3, g4, rfl⟩ := exists_len_five G hG
    rw [segment_eval]
    simp [matVec, Mclaim]
    and_intros <;> ring
  · intro spl G
    simp [coefficients]
  · intro spl G i hseg hlen
    have hmap : (coefficients spl G).coeff =
        spl.coeff.mapIdx (fun i row =>
          if i < spl.num_segs then segment row (G.coeff.getD i []) else row) := by
      simp [coefficients]
    rw [hmap, getD_mapIdx _ _ _ _ hlen, if_pos hseg]

theorem segment_coefficients_basis_witness :
    segment [(9 : ℚ), 9, 9, 9, 9] [1, 2, 3, 4, 5] = matVec Mclaim [1, 2, 3, 4, 5] ∧
    (coefficients spl6 G6).coeff.getD 0 [] =
      segment (spl6.coeff.getD 0 []) (G6.coeff.getD 0 []) :=
  ⟨segment_coefficients_basis.2.1 [9, 9, 9, 9, 9] [1, 2, 3, 4, 5] rfl,
   segment_coefficients_basis.2.2.2 spl6 G6 0 (by decide) (by decide)⟩

/-- Claim C8: the basis transform is linear — `segment` applied to
`k * G` is `k` times the result for `G` (for any prior contents of the
output row), and `segment` on an elementwise sum of two geometry rows
of equal width is the elementwise sum of the two results. -/
theorem segment_linear (S1 S2 : List ℚ) (k : ℚ) (G G1 G2 : List ℚ)
    (hlen : G1.length = G2.length) :
    segment S1 (G.map (fun g => k * g)) = (segment S2 G).map (fun s => k * s) ∧
    segment S1 (List.zipWith (fun a b => a + b) G1 G2) =
      List.zipWith (fun a b => a + b) (segment S1 G1) (segment S2 G2) := by
  constructor
  · rw [segment_eval, segment_eval]
    simp only [List.map_cons, List.map_nil, getD_map_mul, List.cons.injEq, and_true]
    and_intros <;> ring
  · rw [segment_eval, segment_eval, segment_eval]
    simp only [List.zipWith_cons_cons, List.zipWith_nil_right,
      getD_zipWith_add G1 G2 hlen, List.cons.injEq, and_true]
    and_intros <;> ring

theorem segment_linear_witness :
    segment [(0 : ℚ)] (([1, 2, 3, 4, 5] : List ℚ).map (fun g => (2 : ℚ) * g)) =
      (segment [(7 : ℚ)] [1, 2, 3, 4, 5]).map (fun s => (2 : ℚ) * s) ∧
    segment [(0 : ℚ)]
        (List.zipWith (fun a b => a + b) ([1, 2, 3, 4, 5] : List ℚ) [5, 4, 3, 2, 1]) =
      List.zipWith (fun a b => a + b)
        (segment [(0 : ℚ)] [1, 2, 3, 4, 5]) (segment [(7 : ℚ)] [5, 4, 3, 2, 1]) :=
  segment_linear [0] [7] 2 [1, 2, 3, 4, 5] [1, 2, 3, 4, 5] [5, 4, 3, 2, 1] rfl

/-- Claim C3: for a curve of length `L >= D+1`, the geometry matrix has
`L - D` rows and row `i` is the sliding window
`[curve[i], curve[i+1], curve[i+2], curve[i+3], curve[i+4]]`, with no
smoothing or padding. -/
theorem gmatrix_sliding_window (c : curve_t) (h5 : DEGREE + 1 ≤ c.len)
    (hx : c.x.length = c.len) :
    (gmatrix (create_spline c) c).coeff.length = c.len - DEGREE ∧
    (∀ i, i < c.len - DEGREE →
      (gmatrix (create_spline c) c).coeff.getD i [] =
        [c.x.getD i 0, c.x.getD (i + 1) 0, c.x.getD (i + 2) 0,
         c.x.getD (i + 3) 0, c.x.getD (i + 4) 0]) := by
  constructor
  · simp [gmatrix, create_spline]
  · intro i hi
    have hlen : i < (create_spline c).coeff.length := by
      simpa [create_spline] using hi
    have hmap : (gmatrix (create_spline c) c).coeff =
        (create_spline c).coeff.mapIdx (fun i row =>
          if i < (create_spline c).curve.len - DEGREE then
            (List.range (DEGREE + 1)).map (fun j => c.x.getD (j + i) 0)
          else row) := by
      simp [gmatrix]
    have hcond : i < (create_spline c).curve.len - DEGREE := by
      simpa [create_spline] using hi
    rw [hmap, getD_mapIdx _ _ _ _ hlen, if_pos hcond]
    simp [DEGREE, range_five, Nat.add_comm]

theorem gmatrix_sliding_window_witness :
    (gmatrix (create_spline ramp9) ramp9).coeff.getD 0 [] =
      [ramp9.x.getD 0 0, ramp9.x.getD 1 0, ramp9.x.getD 2 0,
       ramp9.x.getD 3 0, ramp9.x.getD 4 0] :=
  (gmatrix_sliding_window ramp9 (by decide) (by decide)).2 0 (by decide)

/-- Claim C10: `gmatrix(G, curve)` takes the number of rows it fills
from the length of the curve back-referenced by `G`
(`G.curve.len - D`), never from the length of the curve argument; the
curve argument only supplies the copied sample values. Stated for a
`G` built from a curve `c1` and an arbitrary second curve `c2`. -/
theorem gmatrix_rowcount_backref (c1 c2 : curve_t) (h5 : DEGREE + 1 ≤ c1.len) :
    (gmatrix (create_spline c1) c2).coeff.length = c1.len - DEGREE ∧
    (∀ i, i < c1.len - DEGREE →
      (gmatrix (create_spline c1) c2).coeff.getD i [] =
        (List.range (DEGREE + 1)).map (fun j => c2.x.getD (j + i) 0)) := by
  constructor
  · simp [gmatrix, create_spline]
  · intro i hi
    have hlen : i < (create_spline c1).coeff.length := by
      simpa [create_spline] using hi
    have hmap : (gmatrix (create_spline c1) c2).coeff =
        (create_spline c1).coeff.mapIdx (fun i row =>
          if i < (create_spline c1).curve.len - DEGREE then
            (List.range (DEGREE + 1)).map (fun j => c2.x.getD (j + i) 0)
          else row) := by
      simp [gmatrix]
    have hcond : i < (create_spline c1).curve.len - DEGREE := by
      simpa [create_spline] using hi
    rw [hmap, getD_mapIdx _ _ _ _ hlen, if_pos hcond]

theorem applyWrites_cons (xs : List ℚ) (w : Nat × ℚ) (ws : List (Nat × ℚ)) :
    applyWrites xs (w :: ws) = applyWrites (xs.set w.1 w.2) ws := rfl

theorem applyWrites_length (xs : List ℚ) (ws : List (Nat × ℚ)) :
    (applyWrites xs ws).length = xs.length := by
  induction ws generalizing xs with
  | nil => rfl
  | cons w ws ih => rw [applyWrites_cons, ih, List.length_set]

theorem applyWrites_getElem?_not_mem (xs : List ℚ) (ws : List (Nat × ℚ)) (k : Nat)
    (h : k ∉ ws.map Prod.fst) : (applyWrites xs ws)[k]? = xs[k]? := by
  induction ws generalizing xs with
  | nil => rfl
  | cons w ws ih =>
    simp only [List.map_cons, List.mem_cons] at h
    push_neg at h
    rw [applyWrites_cons, ih _ h.2, List.getElem?_set,
      if_neg (fun hh => h.1 hh.symm)]

theorem applyWrites_getElem?_mem (xs : List ℚ) (ws : List (Nat × ℚ)) (k : Nat) (v : ℚ)
    (hnd : (ws.map Prod.fst).Nodup) (hmem : (k, v) ∈ ws) (hk : k < xs.length) :
    (applyWrites xs ws)[k]? = some v := by
  induction ws generalizing xs with
  | nil => simp at hmem
  | cons w ws ih =>
    simp only [List.map_cons, List.nodup_cons] at hnd
    rcases List.mem_cons.mp hmem with heq | hmem2
    · rw [applyWrites_cons,
        applyWrites_getElem?_not_mem _ _ _ (by rw [← heq] at hnd; exact hnd.1),
        ← heq]
      exact List.getElem?_set_self hk
    · exact ih (xs.set w.1 w.2) hnd.2 hmem2 (by rw [List.length_set]; exact hk)

theorem flatMap_range_window (n r : Nat) (f : Nat → Nat → ℚ) :
    ((List.range n).flatMap
        (fun i => (List.range r).map (fun j => (j + i * r, f i j)))).map Prod.fst
      = List.range (n * r) := by
  induction n with
  | zero => simp
  | succ n ih =>
    rw [List.range_succ, List.flatMap_append, List.map_append, ih]
    simp only [List.flatMap_cons, List.flatMap_nil, List.append_nil, List.map_map,
      Nat.succ_mul, List.range_add]
    congr 1
    apply List.map_congr_left
    intro a _
    simp [Nat.add_comm]

theorem evalWrites_fst (s : spline_t) (res : Nat) :
    (evalWrites s res).map Prod.fst = List.range (s.num_segs * res) :=
  flatMap_range_window s.num_segs res
    (fun i j => polynomial (s.coeff.getD i []) ((j : ℚ) / (res : ℚ)))

theorem mem_evalWrites (s : spline_t) (res i j : Nat) (hi : i < s.num_segs) (hj : j < res) :
    (j + i * res, polynomial (s.coeff.getD i []) ((j : ℚ) / (res : ℚ))) ∈ evalWrites s res :=
  List.mem_flatMap.mpr
    ⟨i, List.mem_range.mpr hi, List.mem_map.mpr ⟨j, List.mem_range.mpr hj, rfl⟩⟩

/-- Claim C2: when `solution.len` is a positive exact multiple of
`num_segs`, `evaluate` succeeds with `res = solution.len / num_segs`,
writes `polynomial(coeff[i], j/res)` at output index `i*res + j` for
every segment `i < num_segs` and every `j < res` (segment `i` thus
filling exactly `[i*res, (i+1)*res)`), and writes no other index. -/
theorem evaluate_resamples (spl : spline_t) (solution : curve_t) (m : Nat)
    (hseg : 1 ≤ spl.num_segs) (hm : 1 ≤ m)
    (hlen : solution.len = spl.num_segs * m)
    (hx : solution.x.length = solution.len) :
    ∃ sol, evaluate spl solution = some sol ∧
      solution.len / spl.num_segs = m ∧
      sol.len = solution.len ∧
      sol.x.length = solution.x.length ∧
      (evalWrites spl m).map Prod.fst = List.range (spl.num_segs * m) ∧
      (∀ i j, i < spl.num_segs → j < m →
        sol.x.getD (i * m + j) 0 = polynomial (spl.coeff.getD i []) ((j : ℚ) / (m : ℚ))) ∧
      (∀ k, solution.len ≤ k → sol.x.getD k 0 = solution.x.getD k 0) := by
  have hres : solution.len / spl.num_segs = m := by
    rw [hlen]; exact Nat.mul_div_cancel_left m hseg
  have hguard : spl.num_segs ≤ solution.len ∧ solution.len % spl.num_segs = 0 := by
    constructor
    · rw [hlen]
      calc spl.num_segs = spl.num_segs * 1 := (Nat.mul_one _).symm
        _ ≤ spl.num_segs * m := Nat.mul_le_mul_left _ hm
    · rw [hlen]; exact Nat.mul_mod_right _ _
  have heval : evaluate spl solution =
      some { solution with x := applyWrites solution.x (evalWrites spl m) } := by
    unfold evaluate
    rw [if_pos hguard]
    simp only [hres]
  have hnd : ((evalWrites spl m).map Prod.fst).Nodup := by
    rw [evalWrites_fst]; exact List.nodup_range _
  refine ⟨_, heval, hres, rfl, applyWrites_length _ _, evalWrites_fst spl m, ?_, ?_⟩
  · intro i j hi hj
    have hcomm : i * m + j = j + i * m := Nat.add_comm _ _
    have hkx : j + i * m < solution.x.length := by
      rw [hx, hlen]
      calc j + i * m < m + i * m := by omega
        _ = (i + 1) * m := by ring
        _ ≤ spl.num_segs * m := Nat.mul_le_mul_right m (by omega)
    have h1 := applyWrites_getElem?_mem solution.x (evalWrites spl m) (j + i * m)
      (polynomial (spl.coeff.getD i []) ((j : ℚ) / (m : ℚ))) hnd
      (mem_evalWrites spl m i j hi hj) hkx
    rw [hcomm, List.getD_eq_getElem?_getD, h1]
    rfl
  · intro k hk
    have hnotmem : k ∉ (evalWrites spl m).map Prod.fst := by
      rw [evalWrites_fst, List.mem_range]
      rw [hlen] at hk
      omega
    rw [List.getD_eq_getElem?_getD, List.getD_eq_getElem?_getD,
      applyWrites_getElem?_not_mem _ _ _ hnotmem]

theorem evaluate_resamples_witness :
    ∃ sol, evaluate wspline wsol = some sol ∧
      wsol.len / wspline.num_segs = 2 ∧
      sol.len = wsol.len ∧
      sol.x.length = wsol.x.length ∧
      (evalWrites wspline 2).map Prod.fst = List.range (wspline.num_segs * 2) ∧
      (∀ i j, i < wspline.num_segs → j < 2 →
        sol.x.getD (i * 2 + j) 0 =
          polynomial (wspline.coeff.getD i []) ((j : ℚ) / ((2 : Nat) : ℚ))) ∧
      (∀ k, wsol.len ≤ k → sol.x.getD k 0 = wsol.x.getD k 0) :=
  evaluate_resamples wspline wsol 2 (by decide) (by decide) (by decide) (by decide)

theorem gmatrix_rowcount_backref_witness :
    (gmatrix (create_spline ramp9) curve6).coeff.length = ramp9.len - DEGREE ∧
    (gmatrix (create_spline ramp9) curve6).coeff.getD 2 [] =
      (List.range (DEGREE + 1)).map (fun j => curve6.x.getD (j + 2) 0) :=
  ⟨(gmatrix_rowcount_backref ramp9 curve6 (by decide)).1,
   (gmatrix_rowcount_backref ramp9 curve6 (by decide)).2 2 (by decide)⟩

/-- Claim C7, evaluated at the failing input: on the straight-line ramp
`[0,1,...,8]` the full pipeline (geometry matrix, basis transform,
evaluation) does not reproduce the line. The coefficient rows come out
as `[8i+24, 0, 0, 4, i]` for segment `i`, and evaluating with `res = 1`
(each segment sampled at `t = 0`) yields the constant output
`[4,4,4,4,4]`, although consecutive input samples differ. -/
theorem ramp_pipeline_not_linear :
    (spline ramp9 (create_spline ramp9)).coeff =
      [[24, 0, 0, 4, 0], [32, 0, 0, 4, 1], [40, 0, 0, 4, 2],
       [48, 0, 0, 4, 3], [56, 0, 0, 4, 4]] ∧
    evaluate (spline ramp9 (create_spline ramp9)) (create_curve 5) =
      some { x := [4, 4, 4, 4, 4], len := 5 } ∧
    ramp9.x.getD 0 0 ≠ ramp9.x.getD 1 0 := by
  refine ⟨?_, ?_, ?_⟩
  · norm_num [spline, coefficients, gmatrix, create_spline, create_curve, segment,
      polynomial, Mcr, DEGREE, ramp9, range_five, List.mapIdx_cons, List.replicate]
  · norm_num [evaluate, spline, coefficients, gmatrix, create_spline, create_curve,
      segment, polynomial, evalWrites, applyWrites, Mcr, DEGREE, ramp9, range_five,
      List.mapIdx_cons, List.replicate, List.foldl, List.flatMap_cons]
  · norm_num [ramp9]

end Bezier
